import Mathlib

/-!
Verification of the Task 1A PDF-outline extractor (src/task1a).  Python
strings are modelled as lists of characters; machine floats that only flow
through field-free arithmetic are modelled as rationals; `statistics.pstdev`
(a square root) is modelled by passing the root as an explicit parameter
constrained by `0 ≤ σ` and `σ * σ = pvariance`.
-/

namespace Adobe1A

abbrev Str := List Char

/-- Kernel-computable `≤` on rationals (cross-multiplication; equivalent to
`a ≤ b` by `Rat.le_def`).  Used wherever the Python code compares floats, so
that concrete runs reduce inside `decide`. -/
def qle (a b : ℚ) : Bool := decide (a.num * (b.den : ℤ) ≤ b.num * (a.den : ℤ))

/-- Kernel-computable `<` on rationals (see `qle`). -/
def qlt (a b : ℚ) : Bool := decide (a.num * (b.den : ℤ) < b.num * (a.den : ℤ))

/-- Kernel-computable test `a = 0` on rationals (truthiness of a float). -/
def qzero (a : ℚ) : Bool := a.num == 0

/-- Python `str` whitespace for `strip`/`split`/`\s` (ASCII fragment). -/
def pyIsSpace (c : Char) : Bool :=
  c = ' ' || c = '\t' || c = '\n' || c = '\x0d' || c = '\x0b' || c = '\x0c'

/-- Python `lstrip()`. -/
def pyTrimLeft (s : Str) : Str := s.dropWhile pyIsSpace

/-- Python `rstrip()` (`List.rdropWhile p s` is `(s.reverse.dropWhile p).reverse`). -/
def pyTrimRight (s : Str) : Str := s.rdropWhile pyIsSpace

/-- Python `strip()`. -/
def pyTrim (s : Str) : Str := pyTrimRight (pyTrimLeft s)

/-- One step of Python `str.split()` (no argument): a whitespace char opens a
fresh (possibly empty) word slot, any other char extends the current slot. -/
def splitStep (c : Char) (acc : List Str) : List Str :=
  if pyIsSpace c then [] :: acc
  else
    match acc with
    | [] => [[c]]
    | w :: ws => (c :: w) :: ws

/-- Python `str.split()`: split on whitespace runs, dropping empty pieces. -/
def splitWS (s : Str) : List Str :=
  (s.foldr splitStep []).filter (fun w => w ≠ [])

/-- Python `str.lower()` (ASCII fragment). -/
def pyLower (s : Str) : Str := s.map Char.toLower

/-- postprocess._normalize_text: `re.sub(r"\s+", " ", text.strip().lower())`;
on a stripped string, replacing every whitespace run by one space is joining
the `split()` words with single spaces. -/
def normText (s : Str) : Str := List.intercalate [' '] (splitWS (pyLower (pyTrim s)))

/-- repetition._norm_exact: `" ".join(text.strip().split()).lower()`. -/
def normExact (s : Str) : Str := pyLower (List.intercalate [' '] (splitWS (pyTrim s)))

/-! ## hierarchy.py -/

/-- An entry of the outline dictionaries flowing through postprocess.py
(`level`, `text`, `page`, `score`). -/
structure OutlineEntry where
  level : Str
  text : Str
  page : Int
  score : Int
deriving DecidableEq, Repr

/-- Case-insensitive literal matcher: consume `pat` from the head of `s`
(pattern given lowercase), returning the rest on success. -/
def dropCI : Str → Str → Option Str
  | [], s => some s
  | _ :: _, [] => none
  | p :: ps, c :: cs => if c.toLower = p.toLower then dropCI ps cs else none

/-- Python `\w` (ASCII fragment). -/
def isWordChar (c : Char) : Bool := c.isAlpha || c.isDigit || c = '_'

/-- hierarchy.APP_RE: `^\s*appendix\s+[A-Z]\b` with IGNORECASE (so the letter
class also matches lowercase). -/
def appMatch (t : Str) : Bool :=
  match dropCI "appendix".data (t.dropWhile pyIsSpace) with
  | none => false
  | some r =>
    match r with
    | [] => false
    | c :: cs =>
      pyIsSpace c &&
      (match cs.dropWhile pyIsSpace with
       | [] => false
       | d :: ds =>
         d.isAlpha &&
         (match ds with
          | [] => true
          | e :: _ => !isWordChar e))

/-- Greedy parse of `\d+(\.\d+)*` given the value of the digits read so far;
returns the segment values and the unconsumed remainder.  (The regex engine's
backtracking can never rescue a failed continuation here, because a shorter
match always leaves a digit or a dot - never whitespace - as the next char.) -/
def numSegsAux : Str → Nat → (List Nat × Str)
  | [], cur => ([cur], [])
  | c :: r, cur =>
    if c.isDigit then numSegsAux r (cur * 10 + (c.toNat - 48))
    else if c = '.' then
      match r with
      | [] => ([cur], c :: r)
      | d :: _ =>
        if d.isDigit then
          let (ns, rem) := numSegsAux r 0
          (cur :: ns, rem)
        else ([cur], c :: r)
    else ([cur], c :: r)

/-- hierarchy.NUM_RE: `^\s*(\d+(\.\d+)*)`, returning the dotted segments as
numbers (`tuple(int(x) ...)`). -/
def numMatchH (t : Str) : Option (List Nat) :=
  match t.dropWhile pyIsSpace with
  | [] => none
  | c :: r => if c.isDigit then some (numSegsAux r (c.toNat - 48)).1 else none

/-- hierarchy._is_prefix. -/
def isPref (p full : List Nat) : Bool :=
  decide (p.length ≤ full.length) && full.take p.length == p

/-- hierarchy.renormalize_by_number_tree's local `clamp`. -/
def clamp (x : Int) : Int := max 1 (min 3 x)

/-- Python `f"H{n}"`. -/
def hLevel (n : Int) : Str := 'H' :: (toString n).data

/-- The `while stack and not _is_prefix(stack[-1][0], num_tuple): stack.pop()`
loop; the stack is modelled head-first (head = top). -/
def popStack (nums : List Nat) : List (List Nat × Int) → List (List Nat × Int)
  | [] => []
  | (t, l) :: rest => if isPref t nums then (t, l) :: rest else popStack nums rest

/-- hierarchy.renormalize_by_number_tree, main loop: state is the number
stack (head = top) and `base_after_appendix`. -/
def renormAux (abl bump : Int) :
    List OutlineEntry → List (List Nat × Int) → Option Int → List OutlineEntry
  | [], _, _ => []
  | it :: rest, stack, base =>
    let text := pyTrim it.text
    if appMatch text then
      { it with level := hLevel (clamp abl) } :: renormAux abl bump rest [] (some abl)
    else
      match numMatchH text with
      | some nums =>
        match base with
        | some b =>
          let li := clamp (b + bump)
          { it with level := hLevel li } :: renormAux abl bump rest ((nums, li) :: stack) base
        | none =>
          let stack2 := popStack nums stack
          let li :=
            match stack2 with
            | [] => (1 : Int)
            | (pt, pl) :: _ => clamp (pl + max 1 ((nums.length : Int) - pt.length))
          { it with level := hLevel li } :: renormAux abl bump rest ((nums, li) :: stack2) base
      | none => it :: renormAux abl bump rest stack base

/-- hierarchy.renormalize_by_number_tree. -/
def renormalize (items : List OutlineEntry) (abl bump : Int) : List OutlineEntry :=
  renormAux abl bump items [] none

/-- The level renormalize_by_number_tree assigns to an entry once an appendix
marker is active: appendix entries get the clamped base, digit-numbered
entries get the clamped base-plus-bump, anything else keeps its level. -/
def activeLevel (abl bump : Int) (e : OutlineEntry) : Str :=
  if appMatch (pyTrim e.text) then hLevel (clamp abl)
  else if (numMatchH (pyTrim e.text)).isSome then hLevel (clamp (abl + bump))
  else e.level

/-! ## postprocess.py -/

/-- postprocess._LEVEL2INT lookup `_LEVEL2INT.get(level, 3)`. -/
def levelToInt (l : Str) : Int :=
  if l = "H1".data then 1 else if l = "H2".data then 2 else if l = "H3".data then 3 else 3

/-- postprocess._INT2LEVEL lookup (call sites only ever pass 1, 2 or 3;
anything else raises KeyError in Python and is mapped to H3 here). -/
def intToLevel (n : Int) : Str :=
  if n = 1 then "H1".data else if n = 2 then "H2".data else "H3".data

/-- level_classifier.LabeledHeading, restricted to the fields build_outline
reads (the remaining feature fields are carried through _mk_label unchanged
and never touched by postprocess.py). -/
structure LabeledHeading where
  level : Str
  pageIndex0 : Int
  pageNum1 : Int
  text : Str
  score : Int
  yPosition : ℚ
deriving DecidableEq, Repr

/-- Sort key `(h.page_index0, h.y_position)`, as a boolean `≤` test. -/
def headingKeyLe (a b : LabeledHeading) : Bool :=
  decide (a.pageIndex0 < b.pageIndex0) ||
    (a.pageIndex0 == b.pageIndex0 && qle a.yPosition b.yPosition)

/-- Stable insertion used to model Python's stable `list.sort`: an element is
placed after every already-placed element with a `≤` key. -/
def insertStable (x : LabeledHeading) : List LabeledHeading → List LabeledHeading
  | [] => [x]
  | y :: ys => if headingKeyLe y x then y :: insertStable x ys else x :: y :: ys

/-- `labeled_headings.sort(key=lambda h: (h.page_index0, h.y_position))`:
Python's stable sort, modelled as left-to-right stable insertion. -/
def sortHeadings (hs : List LabeledHeading) : List LabeledHeading :=
  hs.foldl (fun acc x => insertStable x acc) []

/-- `min(all_pages) if all_pages else 0`. -/
def minPage (hs : List LabeledHeading) : Int :=
  match hs.map (fun h => h.pageNum1) with
  | [] => 0
  | x :: xs => xs.foldl min x

/-- The configuration fields build_outline reads. -/
structure BuildCfg where
  dropFirstPage : Bool
  kwEnabled : Bool
  kwForceH1 : Bool
  kwMaxPage : Int
  kwList : List Str
  appendixBase : Int
  appendixBump : Int
deriving Repr

/-- The `normalized_level_int` computation of build_outline's loop
(prevent jumps like H1 to H3 relative to `last_level_int`). -/
def normLevelInt (last levelInt : Int) : Int :=
  if last = 0 then levelInt
  else if levelInt > last + 1 then min (last + 1) 3 else levelInt

/-- The same-page duplicate H1 demotion: returns the possibly-demoted level
and the updated `first_h1_seen` page set. -/
def demoteH1 (page : Int) (h1seen : List Int) (normLvl : Str) : Str × List Int :=
  if normLvl = "H1".data then
    if page ∈ h1seen then ("H2".data, h1seen)
    else ("H1".data, page :: h1seen)
  else (normLvl, h1seen)

/-- The keyword force-H1 override (the lowered keyword set is
`set(k.lower() for k in kw.list)` when keywords are enabled). -/
def kwForce (cfg : BuildCfg) (h : LabeledHeading) (lvl : Str) : Str :=
  if cfg.kwEnabled && cfg.kwForceH1 && decide (h.pageNum1 ≤ cfg.kwMaxPage) &&
      decide (pyLower (pyTrim h.text) ∈ cfg.kwList.map pyLower) then "H1".data
  else lvl

/-- build_outline's main loop.  State: `seen_key` (list-as-set of
`(page, normalized text)`), `last_level_int`, `first_h1_seen` (list-as-set of
pages).  Mirrors the source order: level normalization, same-page duplicate
H1 demotion (which updates `first_h1_seen` even for entries the dedup then
skips), dedup, keyword force-H1, append. -/
def buildRawAux (cfg : BuildCfg) (firstPage : Int) :
    List LabeledHeading → List (Int × Str) → Int → List Int → List OutlineEntry
  | [], _, _, _ => []
  | h :: rest, seen, last, h1seen =>
    if cfg.dropFirstPage && h.pageNum1 == firstPage then
      buildRawAux cfg firstPage rest seen last h1seen
    else
      let demoted := demoteH1 h.pageNum1 h1seen (intToLevel (normLevelInt last (levelToInt h.level)))
      let key := (h.pageNum1, normText h.text)
      if key ∈ seen then buildRawAux cfg firstPage rest seen last demoted.2
      else
        let finalLvl := kwForce cfg h demoted.1
        ⟨finalLvl, pyTrim h.text, h.pageNum1, h.score⟩ ::
          buildRawAux cfg firstPage rest (key :: seen) (levelToInt finalLvl) demoted.2

/-- build_outline up to (and excluding) the hierarchy re-normalization:
early return on empty input, sort, then the normalization / dedup loop. -/
def buildRawOutline (hs : List LabeledHeading) (cfg : BuildCfg) : List OutlineEntry :=
  if hs = [] then []
  else buildRawAux cfg (minPage (sortHeadings hs)) (sortHeadings hs) [] 0 []

/-- postprocess._looks_numbered: `re.match(r"^\s*\d+(\.\d+)*", text)` is truthy
iff the first non-whitespace character is a digit. -/
def looksNumbered (t : Str) : Bool :=
  match t.dropWhile pyIsSpace with
  | [] => false
  | c :: _ => c.isDigit

/-- postprocess._looks_heading_like. -/
def looksHeadingLike (t : Str) : Bool :=
  let alpha := t.filter Char.isAlpha
  if decide (alpha.length ≥ 3) then
    let words := splitWS t
    let hasTitleish := words.any (fun w =>
      match w with
      | [] => false
      | c :: _ => c.isUpper)
    let allUpper := alpha.all Char.isUpper
    if hasTitleish || (allUpper && decide (alpha.length ≥ 2)) then true else false
  else false

/-- `prev["text"].rstrip().endswith((':', '-', '—'))`. -/
def endsConnector (t : Str) : Bool :=
  match (pyTrimRight t).getLast? with
  | none => false
  | some c => c = ':' || c = '-' || c = '—'

/-- postprocess._should_merge (its `txt` argument is the stripped item text). -/
def shouldMerge (prev item : OutlineEntry) (txt : Str) : Bool :=
  let words := splitWS txt
  if words.length = 0 || words.length > 2 then false
  else if looksNumbered txt then false
  else if looksHeadingLike txt then false
  else if endsConnector prev.text then true
  else (prev.score - item.score).natAbs ≤ 1

/-- `(prev["text"].rstrip() + " " + txt).strip()` with `txt = item text.strip()`. -/
def mergedText (prevText itemText : Str) : Str :=
  pyTrim (pyTrimRight prevText ++ ' ' :: pyTrim itemText)

/-- One iteration of _merge_trailing_short_tokens' loop; the accumulator is
the `merged` list reversed (head = `merged[-1]`). -/
def mergeFold (rev : List OutlineEntry) (item : OutlineEntry) : List OutlineEntry :=
  match rev with
  | [] => [item]
  | prev :: rest =>
    if item.page ≠ prev.page then item :: prev :: rest
    else if item.level ≠ prev.level then item :: prev :: rest
    else
      let txt := pyTrim item.text
      if shouldMerge prev item txt then
        { prev with text := mergedText prev.text item.text,
                    score := max prev.score item.score } :: rest
      else item :: prev :: rest

/-- postprocess._merge_trailing_short_tokens. -/
def mergeTrailing (outline : List OutlineEntry) : List OutlineEntry :=
  (outline.foldl mergeFold []).reverse

/-- postprocess.build_outline. -/
def buildOutline (hs : List LabeledHeading) (cfg : BuildCfg) : List OutlineEntry :=
  mergeTrailing (renormalize (buildRawOutline hs cfg) cfg.appendixBase cfg.appendixBump)

/-- The (page, normalized text) key the dedup and claim C8 speak about. -/
def entryKey (e : OutlineEntry) : Int × Str := (e.page, normText e.text)

/-! ## writer.py -/

/-- `\1` continuation of writer._GARBAGE_RE after `(.)`: the backreferenced
character may follow zero or more whitespace characters (IGNORECASE makes the
backreference case-insensitive). -/
def matchAfter (c : Char) : Str → Bool
  | [] => false
  | d :: ds => d.toLower = c.toLower || (pyIsSpace d && matchAfter c ds)

/-- `_GARBAGE_RE.search(text)` for `(.)\s*\1\s*(\1|\s)*` (the trailing group
can match empty, so the search succeeds iff `(.)\s*\1` occurs somewhere;
`.` does not match a newline). -/
def garbageSearch : Str → Bool
  | [] => false
  | c :: rest => (c ≠ '\n' && matchAfter c rest) || garbageSearch rest

/-- writer._looks_garbage (`re.sub(r"\s+", "", text)` deletes all whitespace). -/
def looksGarbage (t : Str) : Bool :=
  if t = [] then true
  else
    let noSpace := t.filter (fun c => !pyIsSpace c)
    if noSpace.length < 3 then true else garbageSearch t

/-- The first loop of writer._select_title_from_outline: best-scoring H1 whose
stripped text does not look like garbage (strict `>` keeps the first maximum;
`best_score` starts at -1). -/
def findBest : List OutlineEntry → Option Str → Int → Option Str
  | [], best, _ => best
  | o :: rest, best, bestScore =>
    if o.level = "H1".data then
      let txt := pyTrim o.text
      if !looksGarbage txt then
        if o.score > bestScore then findBest rest (some txt) o.score
        else findBest rest best bestScore
      else findBest rest best bestScore
    else findBest rest best bestScore

/-- The second loop: first H1 whose stripped text is truthy (nonempty). -/
def firstH1Text : List OutlineEntry → Option Str
  | [] => none
  | o :: rest =>
    if o.level = "H1".data then
      let txt := pyTrim o.text
      if txt ≠ [] then some txt else firstH1Text rest
    else firstH1Text rest

/-- writer._select_title_from_outline. -/
def selectTitle (outline : List OutlineEntry) : Str :=
  match outline with
  | [] => "Untitled Document".data
  | first :: _ =>
    let fallback :=
      match firstH1Text outline with
      | some t => t
      | none =>
        let t0 := pyTrim first.text
        if t0 ≠ [] then t0 else "Untitled Document".data
    match findBest outline none (-1) with
    | some t => if t ≠ [] then t else fallback
    | none => fallback

/-- Output entries with the `score` key dropped. -/
structure OutEntry where
  level : Str
  text : Str
  page : Int
deriving DecidableEq, Repr

/-- writer.make_output_from_outline. -/
def makeOutput (outline : List OutlineEntry) : Str × List OutEntry :=
  (selectTitle outline, outline.map (fun o => ⟨o.level, o.text, o.page⟩))

/-! ## repetition.py -/

/-- feature_extractor.FeatureRow restricted to the fields
find_repeated_headings reads. -/
structure FeatureRow where
  text : Str
  wordCount : Int
deriving DecidableEq, Repr

/-- The configuration fields find_repeated_headings reads. -/
structure RepetitionCfg where
  enable : Bool
  minOccurrences : Int
  maxWords : Int
deriving Repr

/-- The multiset of normalized texts the Counter in find_repeated_headings
counts: rows with word count outside 1..max_words are skipped, and falsy
(empty) normalized texts are skipped. -/
def countedTexts (rows : List FeatureRow) (maxW : Int) : List Str :=
  ((rows.filter (fun r => !(r.wordCount == 0 || decide (r.wordCount > maxW)))).map
      (fun r => normExact r.text)).filter (fun t => t ≠ [])

/-- repetition.find_repeated_headings; the returned set is the deduplicated
list of counted texts with count ≥ min_occurrences. -/
def findRepeatedHeadings (rows : List FeatureRow) (cfg : RepetitionCfg) : List Str :=
  if !cfg.enable then []
  else
    ((countedTexts rows cfg.maxWords).dedup).filter
      (fun t => decide (cfg.minOccurrences ≤ ((countedTexts rows cfg.maxWords).count t : Int)))

/-! ## level_classifier.py -/

/-- heuristics.HeadingCandidate restricted to the fields assign_levels and
its helpers read (`font_size_ratio` is `relFontSize`, `has_numeric_prefix`
is `numericPref`; _mk_label copies every field unchanged, modelled by pairing
the assigned level with the candidate). -/
structure Candidate where
  text : Str
  relFontSize : ℚ
  pageTopDistance : ℚ
  verticalGap : ℚ
  isBoldMajority : Bool
  centerDeviation : ℚ
  numericPref : Int
  charCount : Int
  wordCount : Int
deriving DecidableEq, Repr

/-- config.LevelRule. -/
structure LevelRule where
  relFontMin : ℚ
  pageTopPctMax : ℚ
deriving Repr

/-- The `levels` configuration as read by _decide_level. -/
structure LevelsCfg where
  h1 : LevelRule
  h2 : LevelRule
deriving Repr

/-- config.SalienceWeights. -/
structure SalienceWeights where
  bold : ℚ
  center : ℚ
  verticalGapZ : ℚ
  topness : ℚ
  numericPref : ℚ
  shortLine : ℚ
  wordCountNorm : ℚ
deriving Repr

/-- config.SalienceConfig (weights inlined). -/
structure SalienceCfg where
  enable : Bool
  stdEpsilon : ℚ
  qH1 : ℚ
  qH2 : ℚ
  weights : SalienceWeights
deriving Repr

/-- `statistics.mean`. -/
def meanQ (l : List ℚ) : ℚ := l.sum / l.length

/-- `statistics.pvariance` (the square of `statistics.pstdev`). -/
def pvarianceQ (l : List ℚ) : ℚ := ((l.map (fun x => (x - meanQ l) ^ 2)).sum) / l.length

/-- level_classifier._NUM_SINGLE_OR_NESTED: `^\s*(\d+(\.\d+)*)(?:\s|$)`.
Backtracking cannot help: dropping a trailing group leaves a dot, and
shortening `\d+` leaves a digit, neither of which matches `\s|$`. -/
def numNested (t : Str) : Option (List Nat) :=
  match t.dropWhile pyIsSpace with
  | [] => none
  | c :: r =>
    if c.isDigit then
      let (ns, rem) := numSegsAux r (c.toNat - 48)
      match rem with
      | [] => some ns
      | e :: _ => if pyIsSpace e then some ns else none
    else none

/-- level_classifier._infer_level_from_numbering (`depth = dot count + 1`,
i.e. the number of segments). -/
def inferLevelFromNumbering (t : Str) : Option Str :=
  match numNested t with
  | none => none
  | some ns =>
    let depth := ns.length
    if depth ≤ 1 then some "H1".data
    else if depth = 2 then some "H2".data
    else some "H3".data

/-- level_classifier._decide_level. -/
def decideLevel (text : Str) (relFontSize pageTopDistance : ℚ) (lv : LevelsCfg) : Str :=
  match inferLevelFromNumbering text with
  | some l => l
  | none =>
    if qle lv.h1.relFontMin relFontSize || qle pageTopDistance lv.h1.pageTopPctMax then "H1".data
    else if qle lv.h2.relFontMin relFontSize || qle pageTopDistance lv.h2.pageTopPctMax then
      "H2".data
    else "H3".data

/-- Python `round(x, 2)`: round to a multiple of 1/100, ties to even. -/
def roundHalfEven (x : ℚ) : Int :=
  let f := ⌊x⌋
  let r := x - f
  if qlt r (1 / 2) then f
  else if qlt (1 / 2) r then f + 1
  else if f % 2 = 0 then f else f + 1

/-- `round(r, 2)` on a rational. -/
def round2 (x : ℚ) : ℚ := (roundHalfEven (x * 100) : ℚ) / 100

/-- `len({round(r, 2) for r in font_ratios})`. -/
def distinctRounded (l : List ℚ) : Nat := ((l.map round2).dedup).length

/-- assign_levels' strategy selector (`use_salience`); `σr` stands for the
float `statistics.pstdev(font_ratios)`, supplied by the caller and pinned to
the population variance in the theorems. -/
def useSalience (fontSizes : List ℚ) (σr : ℚ) (sal : SalienceCfg) : Bool :=
  sal.enable && decide (1 < fontSizes.length) &&
    (qlt σr sal.stdEpsilon || decide (distinctRounded fontSizes ≤ 2))

/-- `max((hc.word_count for hc in heading_candidates), default=1)`. -/
def maxWordsOf (cands : List Candidate) : Int :=
  match cands.map (fun hc => hc.wordCount) with
  | [] => 1
  | x :: xs => xs.foldl max x

/-- level_classifier._compute_salience_scores, as a list parallel to the
candidates (the Python dict is keyed by `id(hc)`); `σv` stands for
`statistics.pstdev(vertical_gaps)`. -/
def salienceScores (cands : List Candidate) (σv : ℚ) (W : SalienceWeights) : List ℚ :=
  let vgs := cands.map (fun hc => hc.verticalGap)
  let meanVg := if vgs = [] then 0 else meanQ vgs
  let stdVg := if vgs = [] then 1 else if qzero σv then 1 else σv
  let maxWords := maxWordsOf cands
  cands.map (fun hc =>
    W.bold * (if hc.isBoldMajority then 1 else 0)
      + W.center * (1 - hc.centerDeviation)
      + W.verticalGapZ * ((hc.verticalGap - meanVg) / stdVg)
      + W.topness * (1 - hc.pageTopDistance)
      + W.numericPref * (if hc.numericPref ≠ 0 then 1 else 0)
      + W.shortLine * (if hc.charCount ≤ 100 then 1 else 0)
      + W.wordCountNorm * (if maxWords > 0 then (hc.wordCount : ℚ) / (maxWords : ℚ) else 0))

/-- Python `int(x)` (truncation toward zero) on a rational. -/
def pyInt (x : ℚ) : Int := if qle 0 x then ⌊x⌋ else -⌊-x⌋

/-- Insertion into an ascending list (`sorted`). -/
def insQ (x : ℚ) : List ℚ → List ℚ
  | [] => [x]
  | y :: ys => if qle y x then y :: insQ x ys else x :: y :: ys

/-- Python `sorted` on rationals. -/
def sortQ (l : List ℚ) : List ℚ := l.foldl (fun acc x => insQ x acc) []

/-- level_classifier._quantiles' `_pick` (for q outside [0, 1] Python would
raise IndexError; indexing is modelled totally with a default of 0). -/
def pickQuantile (xs : List ℚ) (q : ℚ) : ℚ :=
  let n := xs.length
  if n = 1 then xs.headD 0
  else
    let pos := q * ((n : ℚ) - 1)
    let lo := pyInt pos
    let hi := min (lo + 1) ((n : Int) - 1)
    let frac := pos - (lo : ℚ)
    xs.getD lo.toNat 0 * (1 - frac) + xs.getD hi.toNat 0 * frac

/-- level_classifier._quantiles. -/
def quantilePair (vals : List ℚ) (q1 q2 : ℚ) : ℚ × ℚ :=
  if vals = [] then (0, 0)
  else (pickQuantile (sortQ vals) q1, pickQuantile (sortQ vals) q2)

/-- level_classifier._map_by_quantile. -/
def mapByQuantile (v qH1 qH2 : ℚ) : Str :=
  if qle qH1 v then "H1".data else if qle qH2 v then "H2".data else "H3".data

/-- level_classifier._assign_levels_salience (labels paired with candidates). -/
def salienceAssign (cands : List Candidate) (σv : ℚ) (sal : SalienceCfg) :
    List (Str × Candidate) :=
  let vals := salienceScores cands σv sal.weights
  let qs := quantilePair vals sal.qH1 sal.qH2
  (cands.zip vals).map (fun p => (mapByQuantile p.2 qs.1 qs.2, p.1))

/-- The threshold branch of assign_levels: per-candidate _decide_level. -/
def thresholdAssign (cands : List Candidate) (lv : LevelsCfg) : List (Str × Candidate) :=
  cands.map (fun hc => (decideLevel hc.text hc.relFontSize hc.pageTopDistance lv, hc))

/-- level_classifier.assign_levels (σr, σv stand for the two pstdev floats). -/
def assignLevels (cands : List Candidate) (σr σv : ℚ) (sal : SalienceCfg) (lv : LevelsCfg) :
    List (Str × Candidate) :=
  if cands = [] then []
  else if useSalience (cands.map (fun hc => hc.relFontSize)) σr sal then
    salienceAssign cands σv sal
  else thresholdAssign cands lv

/-! ## feature_extractor.py gap statistics -/

/-- feature_extractor._safe_stats; `σ` stands for `statistics.pstdev(data)`
(`pstdev(data) or 1.0` replaces the deviation by 1.0 exactly when it is 0.0). -/
def safeStats (data : List ℚ) (σ : ℚ) : ℚ × ℚ :=
  if data = [] then (0, 1)
  else (meanQ data, if qzero σ then 1 else σ)

/-- The z-score expression of extract_features:
`(gap - mu) / sd if sd > 0 else 0.0`. -/
def gapZ (gap mu sd : ℚ) : ℚ := if qlt 0 sd then (gap - mu) / sd else 0

/-! ## Bridge lemmas for the kernel-computable comparisons -/

theorem qle_iff (a b : ℚ) : qle a b = true ↔ a ≤ b := by
  rw [qle, decide_eq_true_iff, Rat.le_def]

theorem qlt_iff (a b : ℚ) : qlt a b = true ↔ a < b := by
  rw [qlt, decide_eq_true_iff, Rat.lt_def]

theorem qzero_iff (a : ℚ) : qzero a = true ↔ a = 0 := by
  rw [qzero, beq_iff_eq, Rat.num_eq_zero]

/-! ## Whitespace-trimming lemmas -/

theorem pyTrimLeft_of_pyTrim_eq {t : Str} (h : pyTrim t = t) : pyTrimLeft t = t := by
  have hsfx : pyTrimLeft t <:+ t := List.dropWhile_suffix _
  have h1 : (pyTrim t).length ≤ (pyTrimLeft t).length := by
    have : pyTrimRight (pyTrimLeft t) <+: pyTrimLeft t := List.rdropWhile_prefix _ _
    simpa [pyTrim] using this.length_le
  exact hsfx.eq_of_length (le_antisymm hsfx.length_le (by simpa [h] using h1))

theorem pyTrimRight_of_pyTrim_eq {t : Str} (h : pyTrim t = t) : pyTrimRight t = t := by
  have hl := pyTrimLeft_of_pyTrim_eq h
  calc pyTrimRight t = pyTrimRight (pyTrimLeft t) := by rw [hl]
    _ = t := h

theorem head_not_space_of_trimLeft {c : Char} {r : Str} (h : pyTrimLeft (c :: r) = c :: r) :
    pyIsSpace c = false := by
  by_contra hc
  have hc' : pyIsSpace c = true := by
    cases hcc : pyIsSpace c with
    | false => exact absurd hcc hc
    | true => rfl
  have h2 : pyTrimLeft (c :: r) = pyTrimLeft r := by
    simp [pyTrimLeft, List.dropWhile_cons, hc']
  have hsfx : pyTrimLeft r <:+ r := List.dropWhile_suffix _
  have := hsfx.length_le
  rw [h2] at h
  have : (c :: r).length ≤ r.length := by rw [← h]; exact hsfx.length_le
  simp at this

theorem getLast_not_space_of_trimRight {t : Str}
    (h : pyTrimRight t = t) : ∀ hl : t ≠ [], pyIsSpace (t.getLast hl) = false := by
  intro hl
  have := (List.rdropWhile_eq_self_iff).mp h hl
  cases hcc : pyIsSpace (t.getLast hl) with
  | false => rfl
  | true => exact absurd hcc this

/-- A prefix of a left-trimmed list is left-trimmed. -/
theorem pyTrimLeft_of_isPre {x y : Str} (hp : y <+: x) (hx : pyTrimLeft x = x) :
    pyTrimLeft y = y := by
  cases y with
  | nil => rfl
  | cons c ys =>
    cases x with
    | nil => simp at hp
    | cons d xs =>
      have hcd : c = d := by
        obtain ⟨r, hr⟩ := hp
        exact (List.cons.injEq .. ▸ congrArg id hr : _ ∧ _).1
      subst hcd
      have hc := head_not_space_of_trimLeft hx
      simp [pyTrimLeft, List.dropWhile_cons, hc]

/-- `strip()` is idempotent. -/
theorem pyTrim_idem (t : Str) : pyTrim (pyTrim t) = pyTrim t := by
  have h1 : pyTrimLeft (pyTrim t) = pyTrim t := by
    apply pyTrimLeft_of_isPre (x := pyTrimLeft t)
    · exact List.rdropWhile_prefix _ _
    · simpa [pyTrimLeft] using List.dropWhile_idempotent (p := pyIsSpace) (l := t)
  calc pyTrim (pyTrim t) = pyTrimRight (pyTrim t) := by rw [pyTrim, h1]
    _ = pyTrimRight (pyTrimRight (pyTrimLeft t)) := rfl
    _ = pyTrim t := List.rdropWhile_idempotent _ _

theorem normText_pyTrim (t : Str) : normText (pyTrim t) = normText t := by
  rw [normText, normText, pyTrim_idem]

/-! ## hierarchy.py: idempotence (C3) -/

theorem renormAux_idem (abl bump : Int) (items : List OutlineEntry) :
    ∀ (stack : List (List Nat × Int)) (base : Option Int),
      renormAux abl bump (renormAux abl bump items stack base) stack base =
        renormAux abl bump items stack base := by
  induction items with
  | nil => intro stack base; rfl
  | cons it rest ih =>
    intro stack base
    by_cases happ : appMatch (pyTrim it.text)
    · simp only [renormAux, happ, if_true]
      simp [renormAux, happ, ih]
    · rcases hnum : numMatchH (pyTrim it.text) with _ | nums
      · simp only [renormAux, happ, if_false, hnum]
        simp [renormAux, happ, hnum, ih]
      · rcases base with _ | b
        · simp only [renormAux, happ, if_false, hnum]
          simp [renormAux, happ, hnum, ih]
        · simp only [renormAux, happ, if_false, hnum]
          simp [renormAux, happ, hnum, ih]

/-- Claim C3: renormalize_by_number_tree is idempotent — applying it to its
own output (same appendix base level and child bump) returns that output. -/
theorem renormalize_idempotent (items : List OutlineEntry) (abl bump : Int) :
    renormalize (renormalize items abl bump) abl bump = renormalize items abl bump :=
  renormAux_idem abl bump items [] none

/-! ## hierarchy.py: appendix behaviour (C2) -/

theorem renormAux_active (abl bump : Int) (items : List OutlineEntry) :
    ∀ (stack : List (List Nat × Int)) (i : Nat) (ei : OutlineEntry),
      items[i]? = some ei →
      (renormAux abl bump items stack (some abl))[i]? =
        some { ei with level := activeLevel abl bump ei } := by
  induction items with
  | nil => intro stack i ei h; simp at h
  | cons it rest ih =>
    intro stack i ei h
    cases happ : appMatch (pyTrim it.text) with
    | true =>
      simp only [renormAux, happ, if_true]
      cases i with
      | zero =>
        simp only [List.getElem?_cons_zero, Option.some.injEq] at h
        subst h
        simp [activeLevel, happ]
      | succ n =>
        simp only [List.getElem?_cons_succ] at h ⊢
        exact ih _ n ei h
    | false =>
      rcases hnum : numMatchH (pyTrim it.text) with _ | nums
      all_goals
        simp only [renormAux, happ, hnum, Bool.false_eq_true, if_false]
        cases i with
        | zero =>
          simp only [List.getElem?_cons_zero, Option.some.injEq] at h
          subst h
          simp [activeLevel, happ, hnum]
        | succ n =>
          simp only [List.getElem?_cons_succ] at h ⊢
          exact ih _ n ei h

theorem renormAux_after_app (abl bump : Int) (items : List OutlineEntry) :
    ∀ (stack : List (List Nat × Int)) (i j : Nat) (ej ei : OutlineEntry),
      j ≤ i → items[j]? = some ej → appMatch (pyTrim ej.text) = true →
      items[i]? = some ei →
      (renormAux abl bump items stack none)[i]? =
        some { ei with level := activeLevel abl bump ei } := by
  induction items with
  | nil => intro stack i j ej ei _ hj _ _; simp at hj
  | cons it rest ih =>
    intro stack i j ej ei hji hj happj hi
    cases happ : appMatch (pyTrim it.text) with
    | true =>
      simp only [renormAux, happ, if_true]
      cases i with
      | zero =>
        simp only [List.getElem?_cons_zero, Option.some.injEq] at hi
        subst hi
        simp [activeLevel, happ]
      | succ n =>
        simp only [List.getElem?_cons_succ] at hi ⊢
        exact renormAux_active abl bump rest _ n ei hi
    | false =>
      cases j with
      | zero =>
        simp only [List.getElem?_cons_zero, Option.some.injEq] at hj
        subst hj
        rw [happj] at happ
        cases happ
      | succ m =>
        cases i with
        | zero => omega
        | succ n =>
          simp only [List.getElem?_cons_succ] at hj hi
          rcases hnum : numMatchH (pyTrim it.text) with _ | nums
          · simp only [renormAux, happ, hnum, Bool.false_eq_true, if_false,
              List.getElem?_cons_succ]
            exact ih _ n m ej ei (by omega) hj happj hi
          · simp only [renormAux, happ, hnum, Bool.false_eq_true, if_false,
              List.getElem?_cons_succ]
            exact ih _ n m ej ei (by omega) hj happj hi

/-- Claim C2 (amended): an entry matching the appendix pattern is leveled at
the clamped appendix base level, and once any appendix entry has occurred at
or before position i, the entry at i is leveled at clamp(base + bump) when
its text starts with a digit-led dotted number (NUM_RE), and is otherwise
passed through unchanged (in particular a letter-led "A.1 ..." entry keeps
its incoming level). -/
theorem renorm_appendix_levels (items : List OutlineEntry) (abl bump : Int)
    (i j : Nat) (ej ei : OutlineEntry) (hji : j ≤ i)
    (hj : items[j]? = some ej) (happ : appMatch (pyTrim ej.text) = true)
    (hi : items[i]? = some ei) :
    (renormalize items abl bump)[i]? =
      some { ei with level := activeLevel abl bump ei } :=
  renormAux_after_app abl bump items [] i j ej ei hji hj happ hi

/-- Witness for C2: with base 2 and bump 1, "Appendix A: Data Sources"
becomes H2 and a following digit-numbered "1.1 Raw Tables" becomes H3. -/
theorem renorm_appendix_levels_witness :
    (renormalize [⟨"H1".data, "Appendix A: Data Sources".data, 1, 0⟩,
                  ⟨"H1".data, "1.1 Raw Tables".data, 1, 0⟩] 2 1)[1]? =
      some ⟨"H3".data, "1.1 Raw Tables".data, 1, 0⟩ := by
  have h := renorm_appendix_levels
    [⟨"H1".data, "Appendix A: Data Sources".data, 1, 0⟩,
     ⟨"H1".data, "1.1 Raw Tables".data, 1, 0⟩] 2 1 1 0
    ⟨"H1".data, "Appendix A: Data Sources".data, 1, 0⟩
    ⟨"H1".data, "1.1 Raw Tables".data, 1, 0⟩
    (by decide) (by decide) (by decide) (by decide)
  rw [h]
  decide

/-- Counterexample to C2 as stated: after "Appendix A: Data Sources"
(leveled H2), the entry "A.1 Raw Tables" does not match the digit-led
numbering pattern, so it keeps its incoming level H1 instead of becoming the
claimed H3. -/
theorem renorm_appendix_letter_child_cex :
    (renormalize [⟨"H1".data, "Appendix A: Data Sources".data, 1, 0⟩,
                  ⟨"H1".data, "A.1 Raw Tables".data, 1, 0⟩] 2 1) =
      [⟨"H2".data, "Appendix A: Data Sources".data, 1, 0⟩,
       ⟨"H1".data, "A.1 Raw Tables".data, 1, 0⟩] ∧ "H1".data ≠ "H3".data := by
  decide

/-! ## level_classifier.py: numbering overrides thresholds (C5) -/

/-- Claim C5: under the threshold strategy, a candidate whose text matches the
numbering pattern is leveled purely by its numbering depth (segment count:
1 to H1, 2 to H2, 3 or more to H3), for every font-size ratio, page-top
distance and configured per-level thresholds.  In particular a two-segment
"N.M " text always gets H2. -/
theorem decideLevel_numbering (text : Str) (r p : ℚ) (lv : LevelsCfg) (ns : List Nat)
    (h : numNested text = some ns) :
    decideLevel text r p lv =
      (if ns.length ≤ 1 then "H1".data else if ns.length = 2 then "H2".data
       else "H3".data) := by
  have hinf : inferLevelFromNumbering text =
      some (if ns.length ≤ 1 then "H1".data else if ns.length = 2 then "H2".data
            else "H3".data) := by
    rw [inferLevelFromNumbering, h]
    by_cases h1 : ns.length ≤ 1
    · simp [h1]
    · by_cases h2 : ns.length = 2 <;> simp [h1, h2]
  rw [decideLevel, hinf]

/-- Witness for C5: "2.1 Background" gets H2 whatever the thresholds. -/
theorem decideLevel_numbering_witness :
    decideLevel "2.1 Background".data 5 0 ⟨⟨1, 1⟩, ⟨1, 1⟩⟩ = "H2".data := by
  have h := decideLevel_numbering "2.1 Background".data 5 0 ⟨⟨1, 1⟩, ⟨1, 1⟩⟩ [2, 1]
    (by decide)
  rw [h]
  decide

/-! ## repetition.py: completeness of the repeated-heading set (C4) -/

/-- Claim C4: with the detector enabled and a positive threshold, any row
whose word count is within the limit and whose normalized text occurs at
least min_occurrences times among the counted rows has its normalized text
in the set returned by find_repeated_headings. -/
theorem findRepeated_complete (rows : List FeatureRow) (cfg : RepetitionCfg)
    (r : FeatureRow) (hen : cfg.enable = true) (hmin : 1 ≤ cfg.minOccurrences)
    (_hr : r ∈ rows) (_hw : r.wordCount ≤ cfg.maxWords)
    (hocc : cfg.minOccurrences ≤
      ((countedTexts rows cfg.maxWords).count (normExact r.text) : Int)) :
    normExact r.text ∈ findRepeatedHeadings rows cfg := by
  rw [findRepeatedHeadings, hen]
  simp only [Bool.not_true, Bool.false_eq_true, if_false]
  have hpos : 0 < (countedTexts rows cfg.maxWords).count (normExact r.text) := by
    have h1 : (1 : Int) ≤ ((countedTexts rows cfg.maxWords).count (normExact r.text) : Int) :=
      le_trans hmin hocc
    exact_mod_cast h1
  refine List.mem_filter.mpr ⟨List.mem_dedup.mpr (List.count_pos_iff.mp hpos), ?_⟩
  exact decide_eq_true hocc

/-- Witness for C4: "Intro" occurring three times with threshold 3. -/
theorem findRepeated_complete_witness :
    normExact "Intro".data ∈
      findRepeatedHeadings
        [⟨"Intro".data, 1⟩, ⟨"Intro".data, 1⟩, ⟨"Intro".data, 1⟩] ⟨true, 3, 8⟩ :=
  findRepeated_complete _ _ ⟨"Intro".data, 1⟩ rfl (by decide) (by decide) (by decide)
    (by decide)

/-! ## postprocess.py: level facts -/

theorem levelToInt_H1 : levelToInt "H1".data = 1 := by decide

theorem levelToInt_H2 : levelToInt "H2".data = 2 := by decide

theorem levelToInt_mem (l : Str) :
    levelToInt l = 1 ∨ levelToInt l = 2 ∨ levelToInt l = 3 := by
  rw [levelToInt]
  split_ifs <;> simp

theorem levelToInt_intToLevel (n : Int) (h : n = 1 ∨ n = 2 ∨ n = 3) :
    levelToInt (intToLevel n) = n := by
  rcases h with h | h | h <;> subst h <;> decide

theorem normLevelInt_facts (last li : Int) (hli : li = 1 ∨ li = 2 ∨ li = 3)
    (hlast : 0 ≤ last) :
    (normLevelInt last li = 1 ∨ normLevelInt last li = 2 ∨ normLevelInt last li = 3) ∧
    (last ≠ 0 → normLevelInt last li ≤ last + 1) := by
  rw [normLevelInt]
  split_ifs <;> constructor <;> omega

/-- The level finally stored by build_outline's loop is one of H1, H2, H3 and,
when a previous level exists, at most one step deeper than it. -/
theorem finalLvl_facts (cfg : BuildCfg) (h : LabeledHeading) (last : Int)
    (h1seen : List Int) (hlast : 0 ≤ last) :
    ((levelToInt (kwForce cfg h
        (demoteH1 h.pageNum1 h1seen (intToLevel (normLevelInt last (levelToInt h.level)))).1) = 1 ∨
      levelToInt (kwForce cfg h
        (demoteH1 h.pageNum1 h1seen (intToLevel (normLevelInt last (levelToInt h.level)))).1) = 2 ∨
      levelToInt (kwForce cfg h
        (demoteH1 h.pageNum1 h1seen (intToLevel (normLevelInt last (levelToInt h.level)))).1) = 3)) ∧
    (last ≠ 0 → levelToInt (kwForce cfg h
        (demoteH1 h.pageNum1 h1seen (intToLevel (normLevelInt last (levelToInt h.level)))).1) ≤
      last + 1) := by
  obtain ⟨hmem, hle⟩ := normLevelInt_facts last (levelToInt h.level) (levelToInt_mem _) hlast
  have hrt := levelToInt_intToLevel _ hmem
  rw [kwForce, demoteH1]
  split_ifs <;> constructor <;>
    first
      | (rw [levelToInt_H1]; omega)
      | (rw [levelToInt_H2]; omega)
      | (rw [hrt]; exact hmem)
      | (intro h0; rw [levelToInt_H1]; omega)
      | (intro h0; rw [levelToInt_H2]; omega)
      | (intro h0; rw [hrt]; exact hle h0)

theorem buildRawAux_chain (cfg : BuildCfg) (fp : Int) (hs : List LabeledHeading) :
    ∀ (seen : List (Int × Str)) (last : Int) (h1seen : List Int), 0 ≤ last →
      List.Chain' (fun a b => levelToInt b.level ≤ levelToInt a.level + 1)
        (buildRawAux cfg fp hs seen last h1seen) ∧
      (∀ e, (buildRawAux cfg fp hs seen last h1seen).head? = some e →
        last ≠ 0 → levelToInt e.level ≤ last + 1) := by
  induction hs with
  | nil => intro seen last h1seen _; simp [buildRawAux]
  | cons h rest ih =>
    intro seen last h1seen hlast
    cases hskip : (cfg.dropFirstPage && h.pageNum1 == fp) with
    | true =>
      simp only [buildRawAux, hskip, if_true]
      exact ih seen last h1seen hlast
    | false =>
      by_cases hdup : ((h.pageNum1, normText h.text) ∈ seen)
      · simp only [buildRawAux, hskip, Bool.false_eq_true, if_false]
        rw [if_pos hdup]
        exact ih seen last _ hlast
      · simp only [buildRawAux, hskip, Bool.false_eq_true, if_false]
        rw [if_neg hdup]
        obtain ⟨hFmem, hFle⟩ := finalLvl_facts cfg h last h1seen hlast
        have hF0 : 0 ≤ levelToInt (kwForce cfg h
            (demoteH1 h.pageNum1 h1seen
              (intToLevel (normLevelInt last (levelToInt h.level)))).1) := by omega
        have hFne : levelToInt (kwForce cfg h
            (demoteH1 h.pageNum1 h1seen
              (intToLevel (normLevelInt last (levelToInt h.level)))).1) ≠ 0 := by omega
        obtain ⟨ihc, ihh⟩ := ih ((h.pageNum1, normText h.text) :: seen) _ _ hF0
        constructor
        · refine List.chain'_cons'.mpr ⟨?_, ihc⟩
          intro y hy
          have hy' := ihh y (by simpa using hy) hFne
          simpa using hy'
        · intro e he hlast0
          simp only [List.head?_cons, Option.some.injEq] at he
          subst he
          exact hFle hlast0

/-- Claim C1 (amended): in the intermediate outline produced by
build_outline's level-normalization loop (before the numbering-based
hierarchy renormalization), every entry's level depth is at most the
previous entry's depth plus one. -/
theorem buildRawOutline_no_jumps (hs : List LabeledHeading) (cfg : BuildCfg) :
    List.Chain' (fun a b => levelToInt b.level ≤ levelToInt a.level + 1)
      (buildRawOutline hs cfg) := by
  rw [buildRawOutline]
  by_cases hne : hs = []
  · simp [hne]
  · rw [if_neg hne]
    exact (buildRawAux_chain cfg _ _ [] 0 [] le_rfl).1

/-- Counterexample to C1 as stated: on the final outline, "1 Intro" (H1 by
numbering) followed by "1.1.1 Deep" (H3 by numbering, depth jump of two)
violates the claimed adjacent-depth bound 3 ≤ 1 + 1. -/
theorem buildOutline_jump_cex :
    (buildOutline [⟨"H1".data, 1, 1, "1 Intro".data, 5, 1⟩,
                   ⟨"H2".data, 1, 1, "1.1.1 Deep".data, 5, 2⟩]
        ⟨false, false, false, 5, [], 2, 1⟩).map (fun e => levelToInt e.level) = [1, 3] ∧
    ¬ ((3 : Int) ≤ 1 + 1) := by
  decide

/-! ## postprocess.py: duplicate keys (C8) -/

theorem buildRawAux_keys (cfg : BuildCfg) (fp : Int) (hs : List LabeledHeading) :
    ∀ (seen : List (Int × Str)) (last : Int) (h1seen : List Int),
      ((buildRawAux cfg fp hs seen last h1seen).map entryKey).Nodup ∧
      (∀ k ∈ (buildRawAux cfg fp hs seen last h1seen).map entryKey, k ∉ seen) := by
  induction hs with
  | nil => intro seen last h1seen; simp [buildRawAux]
  | cons h rest ih =>
    intro seen last h1seen
    cases hskip : (cfg.dropFirstPage && h.pageNum1 == fp) with
    | true =>
      simp only [buildRawAux, hskip, if_true]
      exact ih seen last h1seen
    | false =>
      by_cases hdup : ((h.pageNum1, normText h.text) ∈ seen)
      · simp only [buildRawAux, hskip, Bool.false_eq_true, if_false]
        rw [if_pos hdup]
        exact ih seen last _
      · simp only [buildRawAux, hskip, Bool.false_eq_true, if_false]
        rw [if_neg hdup]
        obtain ⟨ihn, ihs⟩ := ih ((h.pageNum1, normText h.text) :: seen) _ _
        have hkey : entryKey (⟨kwForce cfg h
            (demoteH1 h.pageNum1 h1seen
              (intToLevel (normLevelInt last (levelToInt h.level)))).1,
            pyTrim h.text, h.pageNum1, h.score⟩ : OutlineEntry) =
            (h.pageNum1, normText h.text) := by
          simp [entryKey, normText_pyTrim]
        constructor
        · simp only [List.map_cons, List.nodup_cons, hkey]
          refine ⟨fun hmem => ?_, ihn⟩
          exact ihs _ hmem (List.mem_cons_self _ _)
        · intro k hk
          simp only [List.map_cons, List.mem_cons, hkey] at hk
          rcases hk with rfl | hk'
          · exact hdup
          · intro hks
            exact ihs k hk' (List.mem_cons_of_mem _ hks)

theorem renormAux_map_key (abl bump : Int) (items : List OutlineEntry) :
    ∀ (stack : List (List Nat × Int)) (base : Option Int),
      (renormAux abl bump items stack base).map entryKey = items.map entryKey := by
  induction items with
  | nil => intro stack base; rfl
  | cons it rest ih =>
    intro stack base
    cases happ : appMatch (pyTrim it.text) with
    | true =>
      simp only [renormAux, happ, if_true, List.map_cons]
      rw [ih]
      simp [entryKey]
    | false =>
      rcases hnum : numMatchH (pyTrim it.text) with _ | nums
      · simp only [renormAux, happ, hnum, Bool.false_eq_true, if_false, List.map_cons]
        rw [ih]
      · rcases base with _ | b
        all_goals
          simp only [renormAux, happ, hnum, Bool.false_eq_true, if_false, List.map_cons]
          rw [ih]
          simp [entryKey]

/-- Claim C8 (amended): the outline after deduplication and hierarchy
renormalization (i.e. before the trailing-shard merge pass) contains no two
entries with identical (page, normalized text). -/
theorem preMerge_keys_nodup (hs : List LabeledHeading) (cfg : BuildCfg) :
    ((renormalize (buildRawOutline hs cfg) cfg.appendixBase cfg.appendixBump).map
      entryKey).Nodup := by
  rw [renormalize, renormAux_map_key, buildRawOutline]
  by_cases hne : hs = []
  · simp [hne]
  · rw [if_neg hne]
    exact (buildRawAux_keys cfg _ _ [] 0 []).1

/-- Counterexample to C8 as stated: the shard-merge pass glues "a -" and "b"
into "a - b", equal (same page, same normalized text) to a later surviving
entry, so the final outline returned by build_outline has a duplicated
(page, normalized text) key. -/
theorem buildOutline_dup_key_cex :
    ¬ ((buildOutline [⟨"H2".data, 1, 2, "a -".data, 5, 1⟩,
                      ⟨"H2".data, 1, 2, "b".data, 5, 2⟩,
                      ⟨"H2".data, 1, 2, "a - b".data, 5, 3⟩]
          ⟨false, false, false, 5, [], 2, 1⟩).map entryKey).Nodup := by
  decide

/-! ## writer.py: title selection garbage check (C9) -/

/-- Claim C9 (code-bug evaluation): _looks_garbage uses `re.search` on the
unanchored pattern `(.)\s*\1\s*(\1|\s)*`, so any text containing a repeated
character (here the "ll" of "Hello") counts as garbage; the title picked for
[H1 "Hello" score 5, H1 "Abc" score 1] is therefore "Abc", not the
highest-scoring non-garbage H1 "Hello" that the claim (whole text a single
repeated-character run) would select. -/
theorem selectTitle_garbage_eval :
    selectTitle [⟨"H1".data, "Hello".data, 1, 5⟩, ⟨"H1".data, "Abc".data, 1, 1⟩] =
      "Abc".data ∧
    looksGarbage "Hello".data = true ∧ "Abc".data ≠ "Hello".data := by
  decide

/-! ## feature_extractor.py: gap z-score denominator (C6) -/

/-- Claim C6 (amended): for a non-empty page gap list, the z-score divides by
the population standard deviation itself, replaced by 1.0 only when it is
exactly zero (not floored at 1.0); `σ` stands for `statistics.pstdev(data)`,
pinned by `0 ≤ σ` and `σ * σ = pvariance`. -/
theorem gapZ_denominator (data : List ℚ) (σ g : ℚ) (hne : data ≠ [])
    (hσ0 : 0 ≤ σ) (_hσ : σ * σ = pvarianceQ data) :
    gapZ g (safeStats data σ).1 (safeStats data σ).2 =
      (g - meanQ data) / (if σ = 0 then 1 else σ) := by
  rw [safeStats, if_neg hne]
  by_cases h0 : σ = 0
  · have hq : qzero σ = true := (qzero_iff σ).mpr h0
    rw [if_pos h0]
    simp only [hq, if_true]
    rw [gapZ, if_pos ((qlt_iff 0 1).mpr one_pos)]
  · have hq : qzero σ = false := by
      cases hc : qzero σ with
      | false => rfl
      | true => exact absurd ((qzero_iff σ).mp hc) h0
    have hpos : (0 : ℚ) < σ := lt_of_le_of_ne hσ0 (Ne.symm h0)
    rw [if_neg h0]
    simp only [hq, Bool.false_eq_true, if_false]
    rw [gapZ, if_pos ((qlt_iff 0 σ).mpr hpos)]

/-- Witness for C6 (amended): the page with gaps 0 and 1 has pstdev 1/2. -/
theorem gapZ_denominator_witness :
    gapZ 0 (safeStats [0, 1] (1 / 2)).1 (safeStats [0, 1] (1 / 2)).2 =
      ((0 : ℚ) - meanQ [0, 1]) / (if (1 / 2 : ℚ) = 0 then 1 else 1 / 2) :=
  gapZ_denominator [0, 1] (1 / 2) 0 (by simp) (by norm_num)
    (by norm_num [pvarianceQ, meanQ])

/-- Counterexample to C6 as stated: with gaps 0 and 1 the population standard
deviation is 1/2, the code divides by 1/2 giving z = -1 for the first gap,
while the claimed `max(1.0, pstdev)` floor would give -1/2. -/
theorem gapZ_flooring_cex :
    (0 : ℚ) ≤ 1 / 2 ∧ (1 / 2 : ℚ) * (1 / 2) = pvarianceQ [0, 1] ∧
    gapZ 0 (safeStats [0, 1] (1 / 2)).1 (safeStats [0, 1] (1 / 2)).2 = -1 ∧
    ((0 : ℚ) - meanQ [0, 1]) / max 1 (1 / 2) = -(1 / 2) ∧
    ((-1 : ℚ) ≠ -(1 / 2)) := by
  have hq : qzero ((1 : ℚ) / 2) = false := by
    cases hc : qzero ((1 : ℚ) / 2) with
    | false => rfl
    | true => exact absurd ((qzero_iff _).mp hc) (by norm_num)
  have hmean : meanQ [0, 1] = 1 / 2 := by norm_num [meanQ]
  refine ⟨by norm_num, by norm_num [pvarianceQ, meanQ], ?_, ?_, by norm_num⟩
  · rw [safeStats, if_neg (by simp : ([0, 1] : List ℚ) ≠ [])]
    simp only [hq, Bool.false_eq_true, if_false]
    rw [gapZ, if_pos ((qlt_iff 0 (1 / 2)).mpr (by norm_num)), hmean]
    norm_num
  · rw [hmean, max_eq_left (by norm_num : (1 : ℚ) / 2 ≤ 1)]
    norm_num

/-! ## postprocess.py: shard-merge frame property (C10) -/

/-- On trimmed nonempty texts, the merged text is exactly the two texts
joined by one space. -/
theorem mergedText_concat {p i : Str} (hp : pyTrim p = p) (hpne : p ≠ [])
    (hi : pyTrim i = i) (hine : i ≠ []) :
    mergedText p i = p ++ ' ' :: i := by
  rw [mergedText, pyTrimRight_of_pyTrim_eq hp, hi]
  have hleft : pyTrimLeft (p ++ ' ' :: i) = p ++ ' ' :: i := by
    cases p with
    | nil => exact absurd rfl hpne
    | cons c cs =>
      have hc := head_not_space_of_trimLeft (pyTrimLeft_of_pyTrim_eq hp)
      simp [pyTrimLeft, List.dropWhile_cons, hc]
  have hright : pyTrimRight (p ++ ' ' :: i) = p ++ ' ' :: i := by
    rw [pyTrimRight]
    apply List.rdropWhile_eq_self_iff.mpr
    intro hl
    have hq : (p ++ ' ' :: i).getLast? = i.getLast? := by
      rw [show p ++ ' ' :: i = (p ++ [' ']) ++ i from by simp]
      exact List.getLast?_append_of_ne_nil _ hine
    have h1 : (p ++ ' ' :: i).getLast? = some ((p ++ ' ' :: i).getLast hl) :=
      List.getLast?_eq_getLast _ hl
    have h2 : i.getLast? = some (i.getLast hine) := List.getLast?_eq_getLast _ hine
    have heq : (p ++ ' ' :: i).getLast hl = i.getLast hine := by
      rw [hq, h2] at h1
      exact (Option.some_inj.mp h1).symm
    rw [heq]
    have hns := getLast_not_space_of_trimRight (pyTrimRight_of_pyTrim_eq hi) hine
    simp [hns]
  rw [pyTrim, hleft, hright]

/-- Claim C10: when the shard-merge pass merges an entry into its
predecessor, exactly the predecessor's text (the two texts joined by a
space) and score (their maximum) change — its page and level are kept, the
merged-in entry disappears, and earlier accumulated entries are untouched;
when the guards fail, the entry is appended unchanged. -/
theorem mergeFold_frame :
    (∀ (prev item : OutlineEntry) (rest : List OutlineEntry),
      item.page = prev.page → item.level = prev.level →
      shouldMerge prev item (pyTrim item.text) = true →
      pyTrim prev.text = prev.text → prev.text ≠ [] →
      pyTrim item.text = item.text → item.text ≠ [] →
      mergeFold (prev :: rest) item =
        { prev with text := prev.text ++ ' ' :: item.text,
                    score := max prev.score item.score } :: rest) ∧
    (∀ (prev item : OutlineEntry) (rest : List OutlineEntry),
      (item.page ≠ prev.page ∨ item.level ≠ prev.level ∨
        shouldMerge prev item (pyTrim item.text) = false) →
      mergeFold (prev :: rest) item = item :: prev :: rest) := by
  constructor
  · intro prev item rest hpage hlevel hsm hp hpne hi hine
    simp only [mergeFold]
    rw [if_neg (fun hne => hne hpage), if_neg (fun hne => hne hlevel), if_pos hsm,
      mergedText_concat hp hpne hi hine]
  · intro prev item rest h
    simp only [mergeFold]
    by_cases hpg : item.page ≠ prev.page
    · rw [if_pos hpg]
    · rw [if_neg hpg]
      by_cases hlv : item.level ≠ prev.level
      · rw [if_pos hlv]
      · rw [if_neg hlv]
        rcases h with h | h | h
        · exact absurd h hpg
        · exact absurd h hlv
        · rw [if_neg (by simp [h])]

/-- Witness for C10: "a -" (ends with a connector) absorbs the one-word
shard "b" on the same page and level; only text and score change. -/
theorem mergeFold_frame_witness :
    mergeFold [⟨"H2".data, "a -".data, 2, 5⟩] ⟨"H2".data, "b".data, 2, 5⟩ =
      [⟨"H2".data, "a - b".data, 2, 5⟩] := by
  have h := mergeFold_frame.1 ⟨"H2".data, "a -".data, 2, 5⟩ ⟨"H2".data, "b".data, 2, 5⟩ []
    rfl rfl (by decide) (by decide) (by decide) (by decide) (by decide)
  rw [h]
  decide

/-! ## level_classifier.py: strategy selection (C7) -/

/-- Claim C7: with salience enabled, assign_levels uses the salience strategy
iff there are at least two candidates and (the font-ratio pstdev is below
the epsilon, or at most two distinct two-decimal-rounded ratios exist);
otherwise it uses the per-candidate threshold strategy — exactly one of the
two runs.  `σr` stands for `statistics.pstdev` of the ratios, `σv` for the
pstdev of the vertical gaps used inside the salience scores. -/
theorem assignLevels_strategy (cands : List Candidate) (σr σv : ℚ)
    (sal : SalienceCfg) (lv : LevelsCfg) (hen : sal.enable = true)
    (_hσ0 : 0 ≤ σr)
    (_hσ : σr * σr = pvarianceQ (cands.map (fun hc => hc.relFontSize))) :
    (useSalience (cands.map (fun hc => hc.relFontSize)) σr sal = true ↔
      2 ≤ cands.length ∧
        (σr < sal.stdEpsilon ∨
          distinctRounded (cands.map (fun hc => hc.relFontSize)) ≤ 2)) ∧
    (useSalience (cands.map (fun hc => hc.relFontSize)) σr sal = true →
      assignLevels cands σr σv sal lv = salienceAssign cands σv sal) ∧
    (useSalience (cands.map (fun hc => hc.relFontSize)) σr sal = false →
      assignLevels cands σr σv sal lv = thresholdAssign cands lv) := by
  refine ⟨?_, ?_, ?_⟩
  · rw [useSalience, hen]
    simp only [Bool.true_and, Bool.and_eq_true, Bool.or_eq_true, decide_eq_true_eq,
      qlt_iff, List.length_map]
    constructor
    · rintro ⟨h1, h2⟩
      exact ⟨by omega, h2⟩
    · rintro ⟨h1, h2⟩
      exact ⟨by omega, h2⟩
  · intro h
    have hne : cands ≠ [] := by
      intro he
      rw [he] at h
      simp [useSalience] at h
    rw [assignLevels, if_neg hne, if_pos h]
  · intro h
    by_cases hne : cands = []
    · rw [assignLevels, if_pos hne, hne]
      simp [thresholdAssign]
    · rw [assignLevels, if_neg hne, if_neg (by simp [h])]

/-- Witness for C7: two candidates with equal font-size ratios (pstdev 0,
below the epsilon), so the salience strategy is selected. -/
theorem assignLevels_strategy_witness :
    assignLevels [⟨"A".data, 1, 0, 0, false, 0, 0, 1, 1⟩,
                  ⟨"B".data, 1, 0, 0, false, 0, 0, 1, 1⟩] 0 0
        ⟨true, 1, 1, 1, ⟨2, 2, 1, 1, 1, 1, -1⟩⟩ ⟨⟨2, 0⟩, ⟨1, 0⟩⟩ =
      salienceAssign [⟨"A".data, 1, 0, 0, false, 0, 0, 1, 1⟩,
                      ⟨"B".data, 1, 0, 0, false, 0, 0, 1, 1⟩] 0
        ⟨true, 1, 1, 1, ⟨2, 2, 1, 1, 1, 1, -1⟩⟩ := by
  have h := assignLevels_strategy
    [⟨"A".data, 1, 0, 0, false, 0, 0, 1, 1⟩, ⟨"B".data, 1, 0, 0, false, 0, 0, 1, 1⟩]
    0 0 ⟨true, 1, 1, 1, ⟨2, 2, 1, 1, 1, 1, -1⟩⟩ ⟨⟨2, 0⟩, ⟨1, 0⟩⟩ rfl (le_refl 0)
    (by norm_num [pvarianceQ, meanQ])
  exact h.2.1 (by decide)

end Adobe1A
